import Mathlib

/-!
# autorevision

A shallow embedding of `src/build_tools/autorevision/autorevision.cpp`, the
build helper that asks Subversion (or git-svn) for the revision and commit
date of a working directory and writes them into a generated header.

Conventions of the embedding.

* A `std::string`, and the contents of a `char` buffer, is the list of its
  chars (`Str`).
* A `std::string::size_type` that may hold `std::string::npos` is an
  `Option Nat`, `none` standing for `npos`.
* A call that throws `std::out_of_range`, or that touches memory outside an
  array, yields `none` in the `Option` monad; nothing in the program catches
  an exception, so `none` travels up to `main`.
* Messages written to `std::cout` are not part of the model; the flags
  `be_verbose` and `is_debugged` only select such messages.
* What the outside world delivers (the pipes opened with `popen`, the XML
  parser, the file named by `outputFile`) is a parameter of the model.
-/

namespace Autorevision

/-- The contents of a `std::string` or of a `char` array. -/
abbrev Str := List Char

/-! ## `std::string` primitives -/

/-- Search of `what` in the text `s`, whose first char has index `i`:
the index of the first occurrence. -/
def findAux (what : Str) : Str → Nat → Option Nat
  | [], i => if what = [] then some i else none
  | c :: cs, i => if what.isPrefixOf (c :: cs) then some i else findAux what cs (i + 1)

/-- The call `s.find(what, pos)`: index of the first occurrence of `what` in
`s` that starts at `pos` or later, `none` (`npos`) when there is none. -/
def find (s what : Str) (pos : Nat) : Option Nat :=
  if pos ≤ s.length then findAux what (s.drop pos) pos else none

/-- The call `s.rfind(c)` for a char `c`: index of its last occurrence. -/
def rfindChar (s : Str) (c : Char) : Option Nat :=
  match find s.reverse [c] 0 with
  | some k => some (s.length - 1 - k)
  | none => none

/-- The call `s.substr(pos, len)`. It throws `std::out_of_range` (`none`) when
`pos > s.size()`, which is always so for `pos = npos`; otherwise it yields
the chars from `pos` on, at most `len` of them. -/
def substr (s : Str) (pos : Option Nat) (len : Nat) : Option Str :=
  match pos with
  | none => none
  | some p => if p ≤ s.length then some ((s.drop p).take len) else none

/-! ## The `char` buffer of the text strategies -/

/-- Size of `char buf[16384]`. -/
def BUF_SIZE : Nat := 16384

/-- Value of a `char` in a comparison. Whether plain `char` is signed is up
to the platform (`charSigned`); a signed `char` holds a byte above 127 as a
negative number. -/
def charVal (charSigned : Bool) (c : Char) : Int :=
  if charSigned && decide (128 ≤ c.toNat) then (c.toNat : Int) - 256 else (c.toNat : Int)

/-- The element `buf[i]` of `char buf[16384] = {'\0'}` once `fread` has stored
the captured text `output` at its start: the chars of `output`, then zeros.
An index outside the array is `none`. -/
def bufAt (output : Str) (i : Nat) : Option Char :=
  if i < BUF_SIZE then some (output.getD i (Char.ofNat 0)) else none

/-! ## Strategy 2: `QuerySvnOldStyle` (text scan, lines 533-591) -/

/-- The loop
`while (buf[ pos + len ] >= '0' && buf[ pos + len++ ] <= '9') ;`
of `QuerySvnOldStyle`, started with `len`; the result is the final `len`.
The increment belongs to the second operand: it is done whenever the first
comparison holds, also when the second one then fails. Each round reads one
index further, so `BUF_SIZE + 1` rounds of fuel are never used up before the
index leaves the array. -/
def QuerySvnOldStyle_loop (charSigned : Bool) (output : Str) (pos : Nat) :
    Nat → Nat → Option Nat
  | 0, _ => none
  | fuel + 1, len =>
    match bufAt output (pos + len) with
    | none => none
    | some c =>
      if charVal charSigned '0' ≤ charVal charSigned c then
        if charVal charSigned c ≤ charVal charSigned '9' then
          QuerySvnOldStyle_loop charSigned output pos fuel (len + 1)
        else some (len + 1)
      else some len

/-- The revision block of `QuerySvnOldStyle` (from
`std::string what("Last Changed Rev: ");` to the `return false;` after
"Cannot parse revision number"), on the captured text `output`. The outer
`none` is an access outside `buf`; `some none` is `return false;`, taken when
`len` is 0; `some (some (len, revision))` goes on to the date block with the
variable `len` and the new `revision`. -/
def QuerySvnOldStyle_revision (charSigned : Bool) (output : Str) : Option (Option (Nat × Str)) :=
  let what : Str := "Last Changed Rev: ".toList
  -- pos = output.find(what); if found: pos += what.length(); len = 0; loop
  let posLen : Option (Option Nat × Nat) :=
    match find output what 0 with
    | some p =>
      (QuerySvnOldStyle_loop charSigned output (p + what.length) (BUF_SIZE + 1) 0).map
        (fun len => (some (p + what.length), len))
    | none => some (none, 0)
  match posLen with
  | none => none
  | some (pos, len) =>
    if len ≠ 0 then (substr output pos len).map (fun revision => some (len, revision))
    else some none

/-- The date block of `QuerySvnOldStyle` (from `what = "Last Changed Date: ";`
to the `return false;` after "Cannot parse date format"), entered with the value
`len` left by the revision block. The outer `none` is the `std::out_of_range`
of `substr`; `some none` is `return false;`; `some (some date)` is the new
`date`. When the label is not found `pos` is `npos` and `len` keeps the value
it came with. -/
def QuerySvnOldStyle_date (output : Str) (len : Nat) : Option (Option Str) :=
  let what : Str := "Last Changed Date: ".toList
  let posLen : Option Nat × Nat :=
    match find output what 0 with
    | some p =>
      let pos := p + what.length
      let len := find output " ".toList pos
      -- we want the position of the second space
      let len := match len with
        | some l => find output " ".toList (l + 1)
        | none => none
      let len := match len with
        | some l => l - pos
        | none => 0
      (some pos, len)
    | none => (none, len)
  if posLen.2 ≠ 0 then (substr output posLen.1 posLen.2).map some
  else some none

/-- The text-scanning part of `QuerySvnOldStyle` (from
`std::string what("Last Changed Rev: ");` to `return true;`), run on the
captured text `output` with the caller's `revision` and `date`. The result is
the returned flag with `revision` and `date` as the function leaves them,
`none` when it does not return. -/
def QuerySvnOldStyle_scan (charSigned : Bool) (output revision date : Str) :
    Option (Bool × Str × Str) :=
  match QuerySvnOldStyle_revision charSigned output with
  | none => none
  | some none => some (false, revision, date)
  | some (some (len, revision)) =>
    match QuerySvnOldStyle_date output len with
    | none => none
    | some none => some (false, revision, date)
    | some (some date) => some (true, revision, date)

/-! ## Strategy 3: `QueryGitSvn` (text scan, lines 410-468) -/

/-- The loop
`while (buf[ pos + len ] >= '0' && buf[ pos + len++ ] <= '9') ;`
of `QueryGitSvn`, started with `len`; the result is the final `len`. -/
def QueryGitSvn_loop (charSigned : Bool) (output : Str) (pos : Nat) :
    Nat → Nat → Option Nat
  | 0, _ => none
  | fuel + 1, len =>
    match bufAt output (pos + len) with
    | none => none
    | some c =>
      if charVal charSigned '0' ≤ charVal charSigned c then
        if charVal charSigned c ≤ charVal charSigned '9' then
          QueryGitSvn_loop charSigned output pos fuel (len + 1)
        else some (len + 1)
      else some len

/-- The revision block of `QueryGitSvn` (from
`std::string what("Last Changed Rev: ");` to the `return false;` after
"Cannot parse revision number"), on the captured text `output`. The outer
`none` is an access outside `buf`; `some none` is `return false;`, taken when
`len` is 0; `some (some (len, revision))` goes on to the date block with the
variable `len` and the new `revision`. -/
def QueryGitSvn_revision (charSigned : Bool) (output : Str) : Option (Option (Nat × Str)) :=
  let what : Str := "Last Changed Rev: ".toList
  -- pos = output.find(what); if found: pos += what.length(); len = 0; loop
  let posLen : Option (Option Nat × Nat) :=
    match find output what 0 with
    | some p =>
      (QueryGitSvn_loop charSigned output (p + what.length) (BUF_SIZE + 1) 0).map
        (fun len => (some (p + what.length), len))
    | none => some (none, 0)
  match posLen with
  | none => none
  | some (pos, len) =>
    if len ≠ 0 then (substr output pos len).map (fun revision => some (len, revision))
    else some none

/-- The date block of `QueryGitSvn` (from `what = "Last Changed Date: ";`
to the `return false;` after "Cannot parse date format"), entered with the value
`len` left by the revision block. The outer `none` is the `std::out_of_range`
of `substr`; `some none` is `return false;`; `some (some date)` is the new
`date`. When the label is not found `pos` is `npos` and `len` keeps the value
it came with. -/
def QueryGitSvn_date (output : Str) (len : Nat) : Option (Option Str) :=
  let what : Str := "Last Changed Date: ".toList
  let posLen : Option Nat × Nat :=
    match find output what 0 with
    | some p =>
      let pos := p + what.length
      let len := find output " ".toList pos
      -- we want the position of the second space
      let len := match len with
        | some l => find output " ".toList (l + 1)
        | none => none
      let len := match len with
        | some l => l - pos
        | none => 0
      (some pos, len)
    | none => (none, len)
  if posLen.2 ≠ 0 then (substr output posLen.1 posLen.2).map some
  else some none

/-- The text-scanning part of `QueryGitSvn` (from
`std::string what("Last Changed Rev: ");` to `return true;`), run on the
captured text `output` with the caller's `revision` and `date`. The result is
the returned flag with `revision` and `date` as the function leaves them,
`none` when it does not return. -/
def QueryGitSvn_scan (charSigned : Bool) (output revision date : Str) :
    Option (Bool × Str × Str) :=
  match QueryGitSvn_revision charSigned output with
  | none => none
  | some none => some (false, revision, date)
  | some (some (len, revision)) =>
    match QueryGitSvn_date output len with
    | none => none
    | some none => some (false, revision, date)
    | some (some date) => some (true, revision, date)

/-! ## Pipes to the external commands -/

/-- What `popen`, `fread` into the 16384-char buffer, `ferror`/`feof` and
`pclose` deliver for one command line. -/
structure PipeRead where
  /-- Whether `popen` returned a stream. -/
  opened : Bool
  /-- The chars `fread` stored in `buf` (`charRead` / `char_count` of them). -/
  data : Str
  /-- The value of `ferror(fp)` after the read. -/
  read_error : Bool
  /-- The value of `feof(svn)` after the read. -/
  reached_eof : Bool
  /-- Whether `WIFEXITED(ret)` holds and `WEXITSTATUS(ret)` is 0. -/
  exit_ok : Bool

/-- The outside world: the pipe behind each command line. -/
abbrev World := Str → PipeRead

/-- The function `SendQueryViaPipeStream`: the returned flag and
`out_response`. -/
def SendQueryViaPipeStream (world : World) (in_query : Str) : Bool × Str :=
  let r := world in_query
  if r.opened then
    if r.read_error then (false, [])
    else if !r.exit_ok then (false, r.data)
    else (true, r.data)
  else (false, [])

/-- The function `CheckSvnExists`. -/
def CheckSvnExists (world : World) : Bool :=
  let cmd : Str := "svn --version 2>&1".toList
  if !(SendQueryViaPipeStream world cmd).1 then false else true

/-- The function `CheckGitExists`. -/
def CheckGitExists (world : World) : Bool :=
  let cmd : Str := "git --version 2>&1".toList
  if !(SendQueryViaPipeStream world cmd).1 then false else true

/-- The function `QueryGitSvn`: the returned flag with `revision` and `date`
as it leaves them, `none` when an exception leaves it. -/
def QueryGitSvn (charSigned : Bool) (world : World) (workingDir revision date : Str) :
    Option (Bool × Str × Str) :=
  let svncmd : Str := "git svn info ".toList ++ workingDir ++ " 2>&1".toList
  let r := world svncmd
  if r.opened then
    if !r.reached_eof then some (false, revision, date)
    else if !r.exit_ok then some (false, revision, date)
    else QueryGitSvn_scan charSigned r.data revision date
  else some (false, revision, date)

/-- The function `QuerySvnOldStyle`: the returned flag with `revision` and
`date` as it leaves them, `none` when an exception leaves it. -/
def QuerySvnOldStyle (charSigned : Bool) (world : World) (workingDir revision date : Str) :
    Option (Bool × Str × Str) :=
  let svncmd : Str := "svn info --non-interactive ".toList ++ workingDir ++ " 2>&1".toList
  let r := world svncmd
  if r.opened then
    if !r.reached_eof then some (false, revision, date)
    else if !r.exit_ok then some (false, revision, date)
    else QuerySvnOldStyle_scan charSigned r.data revision date
  else some (false, revision, date)

/-! ## Strategy 1: `QuerySvn` (XML) -/

/-- Modelled from the spec: the element tree the XML parser (TinyXML, whose
sources are not part of `src/`) builds from the captured text: elements with
a name, attributes and child nodes, text nodes, and other nodes (comments,
declarations). -/
inductive XmlNode where
  | element (name : Str) (attributes : List (Str × Str)) (children : List XmlNode)
  | text (value : Str)
  | other

/-- Child nodes of a node (none for a node that is not an element). -/
def XmlNode.children : XmlNode → List XmlNode
  | .element _ _ cs => cs
  | _ => []

/-- Modelled from the spec: `FirstChildElement(name)` of TinyXML, the first
child that is an element called `name`; `none` is the null pointer. -/
def FirstChildElement (nodes : List XmlNode) (name : Str) : Option XmlNode :=
  nodes.find? (fun n => match n with
    | .element nm _ _ => decide (nm = name)
    | _ => false)

/-- Modelled from the spec: `Attribute(name)` of TinyXML, the value of the
attribute called `name`; `none` is the null pointer. -/
def XmlNode.Attribute : XmlNode → Str → Option Str
  | .element _ attrs _, name => (attrs.find? (fun a => decide (a.1 = name))).map Prod.snd
  | _, _ => none

/-- Modelled from the spec: `GetText()` of TinyXML, the text of an element
whose first child is a text node; `none` is the null pointer. -/
def XmlNode.GetText : XmlNode → Option Str
  | .element _ _ (.text v :: _) => some v
  | _ => none

/-- The part of `QuerySvn` that works on the parsed document (from
`TiXmlHandle hCommit(&doc);` on), `doc` being the top-level nodes. -/
def QuerySvn_doc (doc : List XmlNode) (revision date : Str) : Bool × Str × Str :=
  let hCommit : Option XmlNode :=
    ((FirstChildElement doc "info".toList).bind
      (fun i => FirstChildElement i.children "entry".toList)).bind
      (fun e => FirstChildElement e.children "commit".toList)
  match hCommit with
  | some e =>
    let revision : Str :=
      match e.Attribute "revision".toList with
      | some v => v
      | none => []
    let date : Str :=
      match (FirstChildElement e.children "date".toList).bind XmlNode.GetText with
      | some t =>
        let date := t
        let date := match find date ['T'] 0 with
          | some pos => date.set pos ' '
          | none => date
        match rfindChar date '.' with
        | some pos => date.take pos
        | none => date
      | none => date
    (true, revision, date)
  | none => (false, revision, date)

/-- The function `QuerySvn`. The XML parser is the parameter `xmlParse`:
`none` when `doc.Error()` holds, else the top-level nodes of the document. -/
def QuerySvn (xmlParse : Str → Option (List XmlNode)) (world : World)
    (workingDir revision date : Str) : Bool × Str × Str :=
  let svncmd : Str := "svn info --xml --non-interactive ".toList ++ workingDir ++ " 2>&1".toList
  let sent := SendQueryViaPipeStream world svncmd
  if sent.1 then
    match xmlParse sent.2 with
    | none => (false, revision, date)
    | some doc => QuerySvn_doc doc revision date
  else (false, revision, date)

/-! ## The output writer -/

/-- The global flags of the program. -/
structure Globals where
  do_int : Bool
  do_std : Bool
  do_wx : Bool
  do_translate : Bool
  be_verbose : Bool
  is_debugged : Bool
  skip_git_svn : Bool
  deriving DecidableEq

/-- The initial values of the global flags: all `false`. -/
def Globals.initial : Globals :=
  ⟨false, false, false, false, false, false, false⟩

/-- State of one file as the program can observe it. -/
structure FileState where
  /-- The text of the file when `std::ifstream` can open it. -/
  content : Option Str
  /-- Whether `std::ofstream` can open (create or truncate) it. -/
  writable : Bool

/-- The files, by name. -/
abbrev FileSys := Str → FileState

/-- Text of a `bool` written under `std::boolalpha`. -/
def boolalpha (b : Bool) : Str :=
  if b then "true".toList else "false".toList

/-- The text `ssWouldBeCurrentVersionTag.str()` built at the start of
`WriteOutput`. -/
def versionTag (g : Globals) (revision date : Str) : Str :=
  "/* ".toList
    ++ "revision:".toList ++ revision ++ ";".toList
    ++ "date:".toList ++ date ++ ";".toList
    ++ "do_int:".toList ++ boolalpha g.do_int ++ ";".toList
    ++ "do_std:".toList ++ boolalpha g.do_std ++ ";".toList
    ++ "do_translate:".toList ++ boolalpha g.do_translate ++ ";".toList
    ++ "do_wx:".toList ++ boolalpha g.do_wx
    ++ " */".toList

/-- The call `std::getline(in, line)` at the start of a file: the chars before
the first newline. -/
def getline (content : Str) : Str :=
  content.takeWhile (fun c => c != '\n')

/-- The values of `revision` and `date` after the `if( do_translate )`
statement of `WriteOutput`, which wraps both in place. -/
def wrapLiteral (g : Globals) (s : Str) : Str :=
  if g.do_translate then "_T(\"".toList ++ s ++ "\")".toList
  else "\"".toList ++ s ++ "\"".toList

/-- Everything `WriteOutput` sends to `ofsHeaderFile`, in order. -/
def headerText (g : Globals) (revision date : Str) : Str :=
  versionTag g revision date ++ "\n".toList
    ++ ("// Don\x27t include this header, only configmanager-revision.cpp should do this.\n"
        ++ "#ifndef AUTOREVISION_H\n"
        ++ "#define AUTOREVISION_H\n"
        ++ "\n").toList
    ++ "\n".toList
    ++ (if g.do_std then "#include <string>\n".toList else [])
    ++ (if g.do_wx then "#include <wx/string.h>\n".toList else [])
    ++ (if g.do_int || g.do_std || g.do_wx then
          ("\n" ++ "namespace autorevision\n" ++ "\x7b\n").toList else [])
    ++ (if g.do_int then
          "\tconst unsigned int svn_revision = ".toList ++ revision ++ ";\n".toList else [])
    ++ (if g.do_std then
          "\t const std::string svn_revision_s(".toList ++ wrapLiteral g revision ++ ");\n".toList
        else [])
    ++ (if g.do_wx then
          "\tconst wxString svnRevision(".toList ++ wrapLiteral g revision ++ ");\n".toList
        else [])
    ++ (if g.do_std then
          "\tconst std::string svn_date_s(".toList ++ wrapLiteral g revision ++ ");\n".toList
        else [])
    ++ (if g.do_wx then
          "\tconst wxString svnDate(".toList ++ wrapLiteral g date ++ ");\n".toList
        else [])
    ++ (if g.do_int || g.do_std || g.do_wx then "\x7d\n\n".toList else [])
    ++ ("\n\n" ++ "#endif // AUTOREVISION_H\n").toList

/-- What a call of `WriteOutput` leaves behind. -/
structure WriteResult where
  /-- The returned flag. -/
  ret : Bool
  /-- Whether the call opened the file for writing, that is rewrote it. -/
  wrote : Bool
  /-- The files after the call. -/
  fs : FileSys
  /-- The reference parameter `revision` after the call. -/
  revision : Str
  /-- The reference parameter `date` after the call. -/
  date : Str

/-- The function `WriteOutput`. -/
def WriteOutput (g : Globals) (fs : FileSys) (outputFile revision date : Str) : WriteResult :=
  let tag := versionTag g revision date
  let unchanged : Bool :=
    match (fs outputFile).content with
    | some text => decide (getline text = tag)
    | none => false
  if unchanged then ⟨true, false, fs, revision, date⟩
  else if !(fs outputFile).writable then ⟨false, false, fs, revision, date⟩
  else
    ⟨true, true,
      Function.update fs outputFile ⟨some (headerText g revision date), (fs outputFile).writable⟩,
      wrapLiteral g revision, wrapLiteral g date⟩

/-! ## `main` -/

/-- The three query strategies. -/
inductive Strategy where
  | svn
  | svnOldStyle
  | gitSvn
  deriving DecidableEq

/-- One executed call of a strategy: which one, the flag it returned, and
`revision` and `date` as it left them. -/
structure Call where
  strategy : Strategy
  success : Bool
  revision : Str
  date : Str
  deriving DecidableEq

/-- The variables `revision`, `date` and `success` of `main`, with the log of
the strategy calls made so far. -/
structure QueryState where
  revision : Str
  date : Str
  success : Bool
  calls : List Call
  deriving DecidableEq

/-- A query strategy seen from `main`: from `revision` and `date` to the
returned flag and the two as left by the call; `none` when it throws. -/
abbrev StrategyFn := Str → Str → Option (Bool × Str × Str)

/-- The statement `success = Query...( workingDir, revision, date );`. -/
def callStrategy (which : Strategy) (f : StrategyFn) (q : QueryState) : Option QueryState :=
  match f q.revision q.date with
  | none => none
  | some (ok, r, d) => some ⟨r, d, ok, q.calls ++ [⟨which, ok, r, d⟩]⟩

/-- Lines 190-214 of `main`: the placeholders and the calls of the strategies,
which are parameters here. -/
def queryPhase (svnExists gitExists skip_git_svn : Bool)
    (querySvn querySvnOldStyle queryGitSvn : StrategyFn) : Option QueryState :=
  let q0 : QueryState := ⟨"0".toList, "unknown date".toList, false, []⟩
  let q1 : Option QueryState :=
    if svnExists then
      match callStrategy Strategy.svn querySvn q0 with
      | none => none
      | some q =>
        -- Try old style, if not successful
        if !q.success then callStrategy Strategy.svnOldStyle querySvnOldStyle q else some q
    else some q0
  match q1 with
  | none => none
  | some q =>
    if !q.success && gitExists && !skip_git_svn then
      callStrategy Strategy.gitSvn queryGitSvn q
    else some q

/-- The global flags and the locals of `main` that the argument loop sets. -/
structure ArgState where
  g : Globals
  outputFile : Str
  workingDir : Str
  overrideRevisionNumber : Str
  deriving DecidableEq

/-- The state before the argument loop. -/
def ArgState.initial : ArgState :=
  ⟨Globals.initial, [], [], []⟩

/-- How the argument loop ends. -/
inductive ParseResult where
  /-- The loop ran to the end. -/
  | done (a : ArgState)
  /-- The option `-h` or `--help` was met: `main` returns 1. -/
  | help
  /-- The option `--revision` was the last argument: `argv[++i]` is the null
  pointer that ends `argv`, and `assign` of it is undefined. -/
  | nullArg
  deriving DecidableEq

/-- The argument loop of `main` over `argv[1]`, `argv[2]`, ... -/
def parseArgs : List Str → ArgState → ParseResult
  | [], a => ParseResult.done a
  | arg :: rest, a =>
    if arg = "+int".toList then parseArgs rest { a with g := { a.g with do_int := true } }
    else if arg = "+std".toList then parseArgs rest { a with g := { a.g with do_std := true } }
    else if arg = "+wx".toList then parseArgs rest { a with g := { a.g with do_wx := true } }
    else if arg = "+t".toList then
      parseArgs rest { a with g := { a.g with do_translate := true } }
    else if arg = "-v".toList ∨ arg = "--verbose".toList then
      parseArgs rest { a with g := { a.g with be_verbose := true } }
    else if arg = "--debug".toList then
      parseArgs rest { a with g := { a.g with is_debugged := true } }
    else if arg = "-h".toList ∨ arg = "--help".toList then ParseResult.help
    else if arg = "--skip-git-svn".toList then
      parseArgs rest { a with g := { a.g with skip_git_svn := true } }
    else if arg = "--revision".toList then
      match rest with
      | [] => ParseResult.nullArg
      | value :: rest2 => parseArgs rest2 { a with overrideRevisionNumber := value }
    else if arg.head? = some '+' ∨ arg.head? = some '-' ∨ arg.head? = some '/'
        ∨ arg.head? = some (Char.ofNat 92) then
      parseArgs rest a
    else if a.workingDir = [] then parseArgs rest { a with workingDir := arg }
    else if a.outputFile = [] then parseArgs rest { a with outputFile := arg }
    else parseArgs rest a

/-- The value of `EXIT_SUCCESS`. -/
def EXIT_SUCCESS : Nat := 0

/-- The value of `EXIT_FAILURE` (1 in the C libraries the tool is built with). -/
def EXIT_FAILURE : Nat := 1

/-- How the process ends. -/
inductive Status where
  /-- The function `main` returned `code`. -/
  | exit (code : Nat)
  /-- A `std::out_of_range` left `main`: the process is terminated. -/
  | uncaught
  /-- Undefined behaviour in the argument loop. -/
  | undefined
  deriving DecidableEq

/-- What a run of `main` does. -/
structure Outcome where
  /-- How the process ends. -/
  status : Status
  /-- The arguments `outputFile`, `revision` and `date` of the call of
  `WriteOutput`, when `main` makes it. -/
  writeCall : Option (Str × Str × Str)
  /-- The files after the run. -/
  fs : FileSys

/-- The `outputFile` of `main` after
`if(outputFile.empty()) outputFile.assign("autorevision.h");`. -/
def outputFileOf (a : ArgState) : Str :=
  if a.outputFile = [] then "autorevision.h".toList else a.outputFile

/-- Lines 190-214 of `main` as the program runs them: the probes
`CheckSvnExists` and `CheckGitExists`, then the three strategies of this file
on `workingDir`. -/
def mainQueries (charSigned : Bool) (xmlParse : Str → Option (List XmlNode)) (world : World)
    (a : ArgState) : Option QueryState :=
  queryPhase (CheckSvnExists world) (CheckGitExists world) a.g.skip_git_svn
    (fun revision date => some (QuerySvn xmlParse world a.workingDir revision date))
    (QuerySvnOldStyle charSigned world a.workingDir)
    (QueryGitSvn charSigned world a.workingDir)

/-- The function `main`, `argv[0]` included in `argv`. -/
def main (charSigned : Bool) (xmlParse : Str → Option (List XmlNode)) (world : World)
    (fs : FileSys) (argv : List Str) : Outcome :=
  match parseArgs (argv.drop 1) ArgState.initial with
  | ParseResult.help => ⟨Status.exit 1, none, fs⟩
  | ParseResult.nullArg => ⟨Status.undefined, none, fs⟩
  | ParseResult.done a =>
    if a.workingDir = [] then ⟨Status.exit 1, none, fs⟩
    else
      let outputFile : Str := outputFileOf a
      let g : Globals := if a.g.is_debugged then { a.g with be_verbose := true } else a.g
      match mainQueries charSigned xmlParse world a with
      | none => ⟨Status.uncaught, none, fs⟩
      | some q =>
        let revision : Str :=
          if a.overrideRevisionNumber ≠ [] then a.overrideRevisionNumber else q.revision
        if !g.do_int && !g.do_std && !g.do_wx then ⟨Status.exit EXIT_FAILURE, none, fs⟩
        else
          let w := WriteOutput g fs outputFile revision q.date
          ⟨Status.exit (if w.ret then EXIT_SUCCESS else EXIT_FAILURE),
            some (outputFile, revision, q.date), w.fs⟩

/-! ## Sample inputs -/

/-- A pipe whose command ran, printed `text` and exited with status 0. -/
def answered (text : Str) : PipeRead :=
  ⟨true, text, false, true, true⟩

/-- A pipe whose command ran, printed `text` and exited with a status other
than 0. -/
def refused (text : Str) : PipeRead :=
  ⟨true, text, false, true, false⟩

/-- No file exists yet; every name can be created. -/
def emptyFiles : FileSys := fun _ => ⟨none, true⟩

/-- The global flags after `+int` alone. -/
def intOnly : Globals :=
  ⟨true, false, false, false, false, false, false⟩

/-- The global flags after `+std` alone. -/
def stdOnly : Globals :=
  ⟨false, true, false, false, false, false, false⟩

/-- A machine with `svn` but no `git`, on which `svn info --xml` exits with
an error for `dir` and the plain `svn info` prints `text`. -/
def svnTextWorld (text : Str) : World := fun cmd =>
  if cmd = "svn --version 2>&1".toList then answered "svn, version 1.14.2".toList
  else if cmd = "svn info --non-interactive dir 2>&1".toList then answered text
  else refused []

/-- An XML parser that rejects every text. -/
def noXml : Str → Option (List XmlNode) := fun _ => none

/-- The answer of `svn info` in the example of the specification. -/
def legacyAnswer : Str :=
  "Last Changed Rev: 99\nLast Changed Date: 2022-03-04 05:06:07 +0000 (Fri, 04 Mar 2022)\n".toList

/-- The parsed form of the XML example of the specification:
`<info><entry><commit revision="42"><date>2023-05-06T07:08:09.123456Z</date>`
`</commit></entry></info>`. -/
def commitDoc : List XmlNode :=
  [XmlNode.element "info".toList []
    [XmlNode.element "entry".toList []
      [XmlNode.element "commit".toList [("revision".toList, "42".toList)]
        [XmlNode.element "date".toList []
          [XmlNode.text "2023-05-06T07:08:09.123456Z".toList]]]]]

/-- A document whose `commit` element has neither a `revision` attribute nor
a `date` child: `<info><entry><commit/></entry></info>`. -/
def bareCommitDoc : List XmlNode :=
  [XmlNode.element "info".toList []
    [XmlNode.element "entry".toList []
      [XmlNode.element "commit".toList [] []]]]

/-- A machine on which every command runs and prints `text`. -/
def echoWorld (text : Str) : World := fun _ => answered text

/-- An answer of `svn info` without any of the two labels. -/
def plainAnswer : Str :=
  "Path: dir\nURL: file:///repo/trunk\n".toList

/-! ## Facts about the `std::string` primitives -/

theorem findAux_bounds (w : Str) : ∀ (s : Str) (i k : Nat),
    findAux w s i = some k → i ≤ k ∧ k + w.length ≤ i + s.length
  | [], i, k, h => by
    unfold findAux at h
    split at h
    · rename_i hw
      simp only [Option.some.injEq] at h
      subst hw; subst h; simp
    · simp at h
  | c :: cs, i, k, h => by
    unfold findAux at h
    split at h
    · rename_i hp
      simp only [Option.some.injEq] at h
      subst h
      have := (List.isPrefixOf_iff_prefix.mp hp).length_le
      simp only [List.length_cons] at this ⊢
      omega
    · have := findAux_bounds w cs (i + 1) k h
      simp only [List.length_cons]
      omega

theorem find_bounds {s w : Str} {pos k : Nat} (h : find s w pos = some k) :
    pos ≤ k ∧ k + w.length ≤ s.length := by
  unfold find at h
  split at h
  · have := findAux_bounds w _ _ _ h
    simp only [List.length_drop] at this
    omega
  · simp at h

theorem findAux_char_append (c : Char) (r : Str) : ∀ (a : Str) (i : Nat), c ∉ a →
    findAux [c] (a ++ c :: r) i = some (i + a.length)
  | [], i, _ => by simp [findAux, List.isPrefixOf]
  | x :: a, i, h => by
    have hx : ¬ (c = x) := fun e => h (by simp [e])
    have ha : c ∉ a := fun e => h (by simp [e])
    have ih := findAux_char_append c r a (i + 1) ha
    simp only [List.cons_append, findAux, List.isPrefixOf, Bool.and_true, beq_iff_eq, hx,
      if_false, List.length_cons, List.append_eq, ih, Option.some.injEq]
    omega

theorem findAux_char_none (c : Char) : ∀ (l : Str) (i : Nat), c ∉ l → findAux [c] l i = none
  | [], i, _ => by simp [findAux]
  | x :: l, i, h => by
    have hx : ¬ (c = x) := fun e => h (by simp [e])
    have hl : c ∉ l := fun e => h (by simp [e])
    simp only [findAux, List.isPrefixOf, Bool.and_true, beq_iff_eq, hx, if_false]
    exact findAux_char_none c l (i + 1) hl

theorem find_char_append {s : Str} {pos : Nat} {c : Char} {a r : Str} (hpos : pos ≤ s.length)
    (hs : s.drop pos = a ++ c :: r) (ha : c ∉ a) : find s [c] pos = some (pos + a.length) := by
  simp only [find, hpos, if_true, hs]
  exact findAux_char_append c r a pos ha

theorem find_char_none {s : Str} {pos : Nat} {c : Char} (hs : c ∉ s.drop pos) :
    find s [c] pos = none := by
  unfold find
  split
  · exact findAux_char_none c _ pos hs
  · rfl

theorem findAux_first (w r : Str) : ∀ (a : Str) (i : Nat),
    (∀ m, m < a.length → ¬ w <+: (a ++ (w ++ r)).drop m) →
    findAux w (a ++ (w ++ r)) i = some (i + a.length)
  | [], i, _ => by
    cases hw : w ++ r with
    | nil =>
      have : w = [] := (List.append_eq_nil.mp hw).1
      simp [findAux, this]
    | cons c cs =>
      have hp : w.isPrefixOf (c :: cs) = true := by
        rw [← hw]; exact List.isPrefixOf_iff_prefix.mpr (List.prefix_append w r)
      simp [findAux, hw, hp]
  | x :: a, i, h => by
    have h0 : ¬ w.isPrefixOf (x :: (a ++ (w ++ r))) = true := by
      intro hp
      exact h 0 (by simp) (by simpa using List.isPrefixOf_iff_prefix.mp hp)
    have ih := findAux_first w r a (i + 1) (fun m hm => by
      have := h (m + 1) (by simpa using hm)
      simpa using this)
    simp only [List.cons_append, findAux, h0, ih, List.length_cons, List.append_eq,
      Bool.false_eq_true, if_false, Option.some.injEq]
    omega

theorem find_first {output w pre rest : Str} (hout : output = pre ++ (w ++ rest))
    (hfirst : ∀ j, j < pre.length → ¬ w <+: output.drop j) :
    find output w 0 = some pre.length := by
  subst hout
  have := findAux_first w rest pre 0 hfirst
  simpa [find] using this



/-! ## Facts about the text strategies -/

theorem charVal_nul (charSigned : Bool) : charVal charSigned (Char.ofNat 0) = 0 := by
  cases charSigned <;> decide

theorem charVal_digit_zero (charSigned : Bool) : charVal charSigned '0' = 48 := by
  cases charSigned <;> decide

theorem QuerySvnOldStyle_loop_inside (charSigned : Bool) (output : Str) (pos fuel len0 len : Nat)
    (h : QuerySvnOldStyle_loop charSigned output pos fuel len0 = some len) :
    len = len0 ∨ pos + len0 < output.length := by
  by_cases hlt : pos + len0 < output.length
  · exact Or.inr hlt
  · left
    have hget : output.getD (pos + len0) (Char.ofNat 0) = Char.ofNat 0 :=
      List.getD_eq_default _ _ (Nat.le_of_not_lt hlt)
    cases fuel with
    | zero => simp [QuerySvnOldStyle_loop] at h
    | succ n =>
      unfold QuerySvnOldStyle_loop bufAt at h
      by_cases hb : pos + len0 < BUF_SIZE
      · simp only [hb, if_true, hget, charVal_nul, charVal_digit_zero] at h
        simpa using h.symm
      · simp [hb] at h

theorem QueryGitSvn_loop_eq (charSigned : Bool) (output : Str) (pos : Nat) :
    ∀ fuel len : Nat, QueryGitSvn_loop charSigned output pos fuel len
      = QuerySvnOldStyle_loop charSigned output pos fuel len
  | 0, _ => rfl
  | fuel + 1, len => by
    simp only [QueryGitSvn_loop, QuerySvnOldStyle_loop, QueryGitSvn_loop_eq charSigned output pos fuel]

theorem QueryGitSvn_revision_eq (charSigned : Bool) (output : Str) :
    QueryGitSvn_revision charSigned output = QuerySvnOldStyle_revision charSigned output := by
  simp only [QueryGitSvn_revision, QuerySvnOldStyle_revision, QueryGitSvn_loop_eq]

theorem QueryGitSvn_date_eq (output : Str) (len : Nat) :
    QueryGitSvn_date output len = QuerySvnOldStyle_date output len := rfl

theorem QueryGitSvn_scan_eq (charSigned : Bool) (output revision date : Str) :
    QueryGitSvn_scan charSigned output revision date
      = QuerySvnOldStyle_scan charSigned output revision date := by
  simp only [QueryGitSvn_scan, QuerySvnOldStyle_scan, QueryGitSvn_revision_eq, QueryGitSvn_date_eq]

/-- What the revision block yields when it goes on: the label was found at
some `p`, `len` is not 0, and `revision` is the `len` chars after the label,
which lie inside the text. -/
theorem QuerySvnOldStyle_revision_some {charSigned : Bool} {output revision : Str} {len : Nat}
    (h : QuerySvnOldStyle_revision charSigned output = some (some (len, revision))) :
    ∃ p, find output "Last Changed Rev: ".toList 0 = some p ∧ len ≠ 0
      ∧ p + 18 < output.length
      ∧ revision = (output.drop (p + 18)).take len := by
  simp only [QuerySvnOldStyle_revision] at h
  cases hf : find output "Last Changed Rev: ".toList 0 with
  | none =>
    rw [hf] at h
    simp at h
  | some p =>
    have hlen : "Last Changed Rev: ".toList.length = 18 := rfl
    simp only [hf, hlen] at h
    cases hl : QuerySvnOldStyle_loop charSigned output (p + 18) (BUF_SIZE + 1) 0 with
    | none => simp [hl] at h
    | some n =>
      simp only [hl, Option.map_some'] at h
      by_cases hn : n = 0
      · simp [hn] at h
      · have hin := QuerySvnOldStyle_loop_inside charSigned output (p + 18) _ 0 n hl
        have hp : p + 18 < output.length := by omega
        simp only [ne_eq, hn, not_false_eq_true, if_true, substr, Nat.le_of_lt hp,
          Option.map_some', Option.some.injEq, Prod.mk.injEq] at h
        exact ⟨p, rfl, by omega, hp, by rw [← h.2, ← h.1]⟩

theorem QuerySvnOldStyle_revision_nonempty {charSigned : Bool} {output revision : Str} {len : Nat}
    (h : QuerySvnOldStyle_revision charSigned output = some (some (len, revision))) :
    revision ≠ [] := by
  obtain ⟨p, _, hlen, hp, hr⟩ := QuerySvnOldStyle_revision_some h
  intro he
  have : revision.length = min len (output.length - (p + 18)) := by
    rw [hr, List.length_take, List.length_drop]
  rw [he] at this
  simp only [List.length_nil] at this
  omega


theorem QuerySvnOldStyle_date_no_label {output : Str} (len : Nat)
    (hf : find output "Last Changed Date: ".toList 0 = none) :
    QuerySvnOldStyle_date output len = if len ≠ 0 then none else some none := by
  simp only [QuerySvnOldStyle_date, hf, substr, Option.map_none']

theorem drop_after_first {output a r : Str} {c : Char} {P : Nat}
    (hs : output.drop P = a ++ c :: r) :
    output.drop (P + a.length + 1) = r ∧ P + a.length + 1 ≤ output.length := by
  constructor
  · have h1 : output.drop (P + (a.length + 1)) = (output.drop P).drop (a.length + 1) := by
      rw [List.drop_drop]
    rw [Nat.add_assoc, h1, hs]
    have h2 : a ++ c :: r = (a ++ [c]) ++ r := by simp
    rw [h2]
    exact List.drop_left' (by simp)
  · have := congrArg List.length hs
    simp only [List.length_drop, List.length_append, List.length_cons] at this
    omega

theorem QuerySvnOldStyle_date_no_space {output : Str} {p : Nat} (len : Nat)
    (hf : find output "Last Changed Date: ".toList 0 = some p)
    (h : ' ' ∉ output.drop (p + 19)) :
    QuerySvnOldStyle_date output len = some none := by
  have hlen : "Last Changed Date: ".toList.length = 19 := rfl
  have hsp : " ".toList = [' '] := rfl
  simp only [QuerySvnOldStyle_date, hf, hlen, hsp, find_char_none h]
  simp

theorem QuerySvnOldStyle_date_one_space {output a r : Str} {p : Nat} (len : Nat)
    (hf : find output "Last Changed Date: ".toList 0 = some p)
    (hs : output.drop (p + 19) = a ++ ' ' :: r) (ha : ' ' ∉ a) (hr : ' ' ∉ r) :
    QuerySvnOldStyle_date output len = some none := by
  have hlen : "Last Changed Date: ".toList.length = 19 := rfl
  have hsp : " ".toList = [' '] := rfl
  have hP : p + 19 ≤ output.length := by
    have := (find_bounds hf).2
    rw [hlen] at this
    exact this
  have h1 := find_char_append hP hs ha
  have hd := drop_after_first hs
  have h2 : find output [' '] (p + 19 + a.length + 1) = none :=
    find_char_none (by rw [hd.1]; exact hr)
  simp only [QuerySvnOldStyle_date, hf, hlen, hsp, h1, h2]
  simp

theorem QuerySvnOldStyle_date_two_spaces {output a b c : Str} {p : Nat} (len : Nat)
    (hf : find output "Last Changed Date: ".toList 0 = some p)
    (hs : output.drop (p + 19) = a ++ ' ' :: (b ++ ' ' :: c)) (ha : ' ' ∉ a) (hb : ' ' ∉ b) :
    QuerySvnOldStyle_date output len = some (some (a ++ ' ' :: b)) := by
  have hlen : "Last Changed Date: ".toList.length = 19 := rfl
  have hsp : " ".toList = [' '] := rfl
  have hP : p + 19 ≤ output.length := by
    have := (find_bounds hf).2
    rw [hlen] at this
    exact this
  have h1 := find_char_append hP hs ha
  have hd := drop_after_first hs
  have h2 : find output [' '] (p + 19 + a.length + 1) = some (p + 19 + a.length + 1 + b.length) :=
    find_char_append hd.2 hd.1 hb
  have hsub : p + 19 + a.length + 1 + b.length - (p + 19) = a.length + 1 + b.length := by omega
  have htake : List.take (a.length + 1 + b.length) (a ++ ' ' :: (b ++ ' ' :: c)) = a ++ ' ' :: b := by
    have e : a ++ ' ' :: (b ++ ' ' :: c) = (a ++ ' ' :: b) ++ ' ' :: c := by simp
    rw [e]
    exact List.take_left' (by simp; omega)
  simp only [QuerySvnOldStyle_date, hf, hlen, hsp, h1, h2, hsub, substr, hP, if_true, hs, htake]
  simp

/-- The date block has three ways to end once the label is found, by the
number of spaces after the label. -/
theorem QuerySvnOldStyle_date_cases {output : Str} {p : Nat} (len : Nat)
    (hf : find output "Last Changed Date: ".toList 0 = some p) :
    ((output.drop (p + 19)).count ' ' < 2 ∧ QuerySvnOldStyle_date output len = some none)
    ∨ ∃ a b c, output.drop (p + 19) = a ++ ' ' :: (b ++ ' ' :: c) ∧ ' ' ∉ a ∧ ' ' ∉ b
        ∧ QuerySvnOldStyle_date output len = some (some (a ++ ' ' :: b)) := by
  by_cases h0 : ' ' ∈ output.drop (p + 19)
  · obtain ⟨a, r, hs, ha⟩ := List.eq_append_cons_of_mem h0
    by_cases h1 : ' ' ∈ r
    · obtain ⟨b, c, hr, hb⟩ := List.eq_append_cons_of_mem h1
      subst hr
      exact Or.inr ⟨a, b, c, hs, ha, hb, QuerySvnOldStyle_date_two_spaces len hf hs ha hb⟩
    · refine Or.inl ⟨?_, QuerySvnOldStyle_date_one_space len hf hs ha h1⟩
      rw [hs, List.count_append, List.count_cons_self, List.count_eq_zero.mpr ha,
        List.count_eq_zero.mpr h1]
      omega
  · refine Or.inl ⟨?_, QuerySvnOldStyle_date_no_space len hf h0⟩
    rw [List.count_eq_zero.mpr h0]
    omega

theorem QuerySvnOldStyle_date_some {output date : Str} {len : Nat}
    (h : QuerySvnOldStyle_date output len = some (some date)) : date ≠ [] := by
  cases hf : find output "Last Changed Date: ".toList 0 with
  | none =>
    rw [QuerySvnOldStyle_date_no_label len hf] at h
    split at h <;> simp at h
  | some p =>
    rcases QuerySvnOldStyle_date_cases len hf with ⟨_, h2⟩ | ⟨a, b, c, _, _, _, h2⟩
    · rw [h2] at h; simp at h
    · rw [h2] at h
      simp only [Option.some.injEq] at h
      rw [← h]; simp


/-! ## The order of the strategies in `main` -/

/-- C1. Lines 190-214 of `main` with the three strategies as arbitrary
functions. Call `(ok1, r1, d1)` what `QuerySvn` returns on the placeholders,
`(ok2, r2, d2)` what `QuerySvnOldStyle` returns on `r1`, `d1`, and `(ok3, r3, d3)`
what `QueryGitSvn` returns on what is left before it (`r2`, `d2` when `svn`
exists, the placeholders when it does not). Then, for every combination of
`svnExists`, `gitExists` and `skip_git_svn`, the query phase ends in a state `q`
such that:
`QuerySvn` is executed exactly when `svn` exists; `QuerySvnOldStyle` exactly when
`svn` exists and `QuerySvn` failed; `QueryGitSvn` exactly when `git` exists, it
is not skipped, and no earlier strategy succeeded; each logged call is the
output named above; the calls come in the fixed order and none follows a
success; the `revision` and `date` handed on are those of the first strategy
that succeeded (`r1`, `d1`, else `r2`, `d2`, else `r3`, `d3`); `success` is set
exactly when some call succeeded; and without a call the placeholders stay. -/
theorem queryPhase_first_success_wins (svnExists gitExists skip_git_svn : Bool)
    (querySvn querySvnOldStyle queryGitSvn : Str → Str → Bool × Str × Str)
    (ok1 ok2 ok3 : Bool) (r1 d1 r2 d2 r3 d3 : Str)
    (h1 : querySvn "0".toList "unknown date".toList = (ok1, r1, d1))
    (h2 : querySvnOldStyle r1 d1 = (ok2, r2, d2))
    (h3 : queryGitSvn (if svnExists then r2 else "0".toList)
      (if svnExists then d2 else "unknown date".toList) = (ok3, r3, d3)) :
    ∃ q : QueryState,
      queryPhase svnExists gitExists skip_git_svn
        (fun revision date => some (querySvn revision date))
        (fun revision date => some (querySvnOldStyle revision date))
        (fun revision date => some (queryGitSvn revision date)) = some q
      -- which strategies are executed
      ∧ (Strategy.svn ∈ q.calls.map Call.strategy ↔ svnExists = true)
      ∧ (Strategy.svnOldStyle ∈ q.calls.map Call.strategy ↔ svnExists = true ∧ ok1 = false)
      ∧ (Strategy.gitSvn ∈ q.calls.map Call.strategy ↔
          gitExists = true ∧ skip_git_svn = false
            ∧ (svnExists = true → ok1 = false ∧ ok2 = false))
      -- what the log holds for each of them
      ∧ (∀ c ∈ q.calls, c.strategy = Strategy.svn → c = ⟨Strategy.svn, ok1, r1, d1⟩)
      ∧ (∀ c ∈ q.calls, c.strategy = Strategy.svnOldStyle →
          c = ⟨Strategy.svnOldStyle, ok2, r2, d2⟩)
      ∧ (∀ c ∈ q.calls, c.strategy = Strategy.gitSvn → c = ⟨Strategy.gitSvn, ok3, r3, d3⟩)
      -- the order of the calls, and nothing after a success
      ∧ List.Sublist (q.calls.map Call.strategy)
          [Strategy.svn, Strategy.svnOldStyle, Strategy.gitSvn]
      ∧ (Strategy.svnOldStyle ∈ q.calls.map Call.strategy →
          ∃ c ∈ q.calls, c.strategy = Strategy.svn ∧ c.success = false)
      ∧ (Strategy.gitSvn ∈ q.calls.map Call.strategy →
          ∀ x ∈ q.calls, x.strategy ≠ Strategy.gitSvn → x.success = false)
      ∧ q.calls.Pairwise (fun earlier _ => earlier.success = false)
      -- the result handed on
      ∧ (∀ c ∈ q.calls, c.success = true →
          q.success = true ∧ q.revision = c.revision ∧ q.date = c.date)
      ∧ (svnExists = true → ok1 = true →
          q.success = true ∧ q.revision = r1 ∧ q.date = d1)
      ∧ (svnExists = true → ok1 = false → ok2 = true →
          q.success = true ∧ q.revision = r2 ∧ q.date = d2)
      ∧ (gitExists = true → skip_git_svn = false →
          (svnExists = true → ok1 = false ∧ ok2 = false) → ok3 = true →
          q.success = true ∧ q.revision = r3 ∧ q.date = d3)
      ∧ (q.success = true ↔ ∃ c ∈ q.calls, c.success = true)
      ∧ (q.calls = [] →
          q.success = false ∧ q.revision = "0".toList ∧ q.date = "unknown date".toList)
      ∧ (∀ c, q.calls.getLast? = some c →
          q.success = c.success ∧ q.revision = c.revision ∧ q.date = c.date) := by
  simp only [queryPhase, callStrategy]
  generalize "0".toList = rev0 at h1 h3 ⊢
  generalize "unknown date".toList = date0 at h1 h3 ⊢
  cases svnExists
  · simp only [Bool.false_eq_true, if_false] at h3
    cases gitExists <;> cases skip_git_svn <;> cases ok3 <;> simp [h3]
  · simp only [if_true] at h3
    cases ok1
    · cases ok2
      · cases gitExists <;> cases skip_git_svn <;> cases ok3 <;> simp [h1, h2, h3]
      · simp [h1, h2]
    · simp [h1]

/-- C1 (witness). With `svn` and `git` present, `QuerySvn` failing and
`QuerySvnOldStyle` succeeding with revision 99: the result is that of
`QuerySvnOldStyle`, and `QueryGitSvn`, which would succeed too, is not run. -/
theorem queryPhase_first_success_wins_witness :
    ∃ q : QueryState,
      queryPhase true true false
        (fun _ _ => some (false, "0".toList, "unknown date".toList))
        (fun _ _ => some (true, "99".toList, "2022-03-04 05:06:07".toList))
        (fun _ _ => some (true, "7".toList, "2020-01-01 00:00:00".toList)) = some q
      ∧ q.success = true ∧ q.revision = "99".toList ∧ q.date = "2022-03-04 05:06:07".toList
      ∧ Strategy.gitSvn ∉ q.calls.map Call.strategy := by
  obtain ⟨q, hq, _, _, hgit, _, _, _, _, _, _, _, _, _, hres, _⟩ :=
    queryPhase_first_success_wins true true false
      (fun _ _ => (false, "0".toList, "unknown date".toList))
      (fun _ _ => (true, "99".toList, "2022-03-04 05:06:07".toList))
      (fun _ _ => (true, "7".toList, "2020-01-01 00:00:00".toList))
      false true true "0".toList "unknown date".toList "99".toList
      "2022-03-04 05:06:07".toList "7".toList "2020-01-01 00:00:00".toList rfl rfl rfl
  refine ⟨q, hq, (hres rfl rfl rfl).1, (hres rfl rfl rfl).2.1, (hres rfl rfl rfl).2.2, ?_⟩
  intro hmem
  have h := (hgit.mp hmem).2.2 rfl
  exact Bool.noConfusion h.2

/-! ## The output writer called twice -/

theorem getline_line (line rest : Str) (h : '\n' ∉ line) :
    getline (line ++ '\n' :: rest) = line := by
  unfold getline
  rw [List.takeWhile_append_of_pos]
  · simp
  · intro a ha
    have : a ≠ '\n' := fun e => h (e ▸ ha)
    simpa using this

theorem boolalpha_no_newline (b : Bool) : '\n' ∉ boolalpha b := by
  cases b <;> decide

theorem versionTag_no_newline (g : Globals) {revision date : Str} (hr : '\n' ∉ revision)
    (hd : '\n' ∉ date) : '\n' ∉ versionTag g revision date := by
  have e1 : '\n' ∉ "/* ".toList := by decide
  have e2 : '\n' ∉ "revision:".toList := by decide
  have e3 : '\n' ∉ ";".toList := by decide
  have e4 : '\n' ∉ "date:".toList := by decide
  have e5 : '\n' ∉ "do_int:".toList := by decide
  have e6 : '\n' ∉ "do_std:".toList := by decide
  have e7 : '\n' ∉ "do_translate:".toList := by decide
  have e8 : '\n' ∉ "do_wx:".toList := by decide
  have e9 : '\n' ∉ " */".toList := by decide
  simp only [versionTag, List.mem_append, not_or]
  exact ⟨⟨⟨⟨⟨⟨⟨⟨⟨⟨⟨⟨⟨⟨⟨⟨⟨⟨e1, e2⟩, hr⟩, e3⟩, e4⟩, hd⟩, e3⟩, e5⟩, boolalpha_no_newline _⟩, e3⟩,
    e6⟩, boolalpha_no_newline _⟩, e3⟩, e7⟩, boolalpha_no_newline _⟩, e3⟩, e8⟩,
    boolalpha_no_newline _⟩, e9⟩

theorem headerText_first_line (g : Globals) (revision date : Str) :
    ∃ rest, headerText g revision date = versionTag g revision date ++ '\n' :: rest := by
  unfold headerText
  simp only [List.append_assoc]
  exact ⟨_, rfl⟩

/-- The second of two equal calls of `WriteOutput` skips the write when
neither `revision` nor `date` holds a newline. -/
theorem WriteOutput_twice_single_line (g : Globals) (fs : FileSys)
    (outputFile revision date : Str) (hr : '\n' ∉ revision) (hd : '\n' ∉ date)
    (h1 : (WriteOutput g fs outputFile revision date).ret = true) :
    (WriteOutput g (WriteOutput g fs outputFile revision date).fs outputFile revision date).ret = true
    ∧ (WriteOutput g (WriteOutput g fs outputFile revision date).fs outputFile revision date).wrote
        = false
    ∧ (WriteOutput g (WriteOutput g fs outputFile revision date).fs outputFile revision date).fs
        = (WriteOutput g fs outputFile revision date).fs := by
  obtain ⟨rest, hrest⟩ := headerText_first_line g revision date
  have hline := getline_line _ rest (versionTag_no_newline g hr hd)
  cases hc : (fs outputFile).content with
  | none =>
    cases hw : (fs outputFile).writable with
    | false => simp [WriteOutput, hc, hw] at h1
    | true => simp [WriteOutput, hc, hw, hrest, hline]
  | some text =>
    by_cases ht : getline text = versionTag g revision date
    · simp [WriteOutput, hc, ht]
    · cases hw : (fs outputFile).writable with
      | false => simp [WriteOutput, hc, hw, ht] at h1
      | true => simp [WriteOutput, hc, hw, ht, hrest, hline]

/-- C2 (defect of the code). With `+int`, revision `1\n2` (as given with
`--revision`) and date `unknown date`, on a file that does not exist yet, the
first call of `WriteOutput` succeeds and writes the file, and the second call
with the same values writes the file again: the first line of the file is only
the part of the tag before the newline, so the tag never matches. -/
theorem WriteOutput_second_call_rewrites_multiline :
    (WriteOutput intOnly emptyFiles "autorevision.h".toList "1\n2".toList
        "unknown date".toList).ret = true
    ∧ (WriteOutput intOnly
        (WriteOutput intOnly emptyFiles "autorevision.h".toList "1\n2".toList
          "unknown date".toList).fs
        "autorevision.h".toList "1\n2".toList "unknown date".toList).wrote = true := by
  decide


/-! ## What a failed strategy leaves behind -/

theorem main_writeCall {charSigned : Bool} {xmlParse : Str → Option (List XmlNode)}
    {world : World} {fs : FileSys} {argv : List Str} {a : ArgState} {q : QueryState}
    (hparse : parseArgs (argv.drop 1) ArgState.initial = ParseResult.done a)
    (hdir : a.workingDir ≠ [])
    (hq : mainQueries charSigned xmlParse world a = some q) :
    (main charSigned xmlParse world fs argv).writeCall =
      if (!a.g.do_int && !a.g.do_std && !a.g.do_wx) = true then none
      else some (outputFileOf a,
        if a.overrideRevisionNumber ≠ [] then a.overrideRevisionNumber else q.revision,
        q.date) := by
  simp only [main, hparse, hdir, if_false, hq]
  cases hdbg : a.g.is_debugged <;> simp only [Bool.false_eq_true, if_false, if_true] <;>
    split <;> rfl

/-- C4 (amended). For every non-empty override value that the argument loop
stored from `--revision`, and whatever the query phase returned (a success of
any strategy or the failure of all), `main` passes to `WriteOutput` the override
value as revision and, as date, the `date` the queries left. -/
theorem main_override_nonempty (charSigned : Bool)
    (xmlParse : Str → Option (List XmlNode)) (world : World) (fs : FileSys)
    (argv : List Str) (a : ArgState) (q : QueryState)
    (hparse : parseArgs (argv.drop 1) ArgState.initial = ParseResult.done a)
    (hdir : a.workingDir ≠ [])
    (hrep : a.g.do_int = true ∨ a.g.do_std = true ∨ a.g.do_wx = true)
    (hover : a.overrideRevisionNumber ≠ [])
    (hq : mainQueries charSigned xmlParse world a = some q) :
    (main charSigned xmlParse world fs argv).writeCall
      = some (outputFileOf a, a.overrideRevisionNumber, q.date) := by
  rw [main_writeCall hparse hdir hq]
  rcases hrep with h | h | h <;> simp [h, hover]

/-- The gate of line 222 when `main` gets that far: for every argument list
that the loop reads without running past the end of `argv`, and in which none
of `+int`, `+std`, `+wx` is recognised as a flag, and for every outcome the
queries return with, `main` returns a non-zero exit code, does not call
`WriteOutput`, and leaves all files as they were. -/
theorem main_without_representation_fails (charSigned : Bool)
    (xmlParse : Str → Option (List XmlNode)) (world : World) (fs : FileSys)
    (argv : List Str)
    (hnull : parseArgs (argv.drop 1) ArgState.initial ≠ ParseResult.nullArg)
    (hflags : ∀ a, parseArgs (argv.drop 1) ArgState.initial = ParseResult.done a →
      a.g.do_int = false ∧ a.g.do_std = false ∧ a.g.do_wx = false)
    (hq : ∀ a, parseArgs (argv.drop 1) ArgState.initial = ParseResult.done a →
      mainQueries charSigned xmlParse world a ≠ none) :
    (∃ code, code ≠ 0 ∧ (main charSigned xmlParse world fs argv).status = Status.exit code)
      ∧ (main charSigned xmlParse world fs argv).writeCall = none
      ∧ (main charSigned xmlParse world fs argv).fs = fs := by
  cases hp : parseArgs (argv.drop 1) ArgState.initial with
  | help =>
    simp only [main, hp]
    exact ⟨⟨1, by decide, rfl⟩, trivial, trivial⟩
  | nullArg => exact absurd hp hnull
  | done a =>
    obtain ⟨h1, h2, h3⟩ := hflags a hp
    by_cases hdir : a.workingDir = []
    · simp only [main, hp, hdir, if_true]
      exact ⟨⟨1, by decide, rfl⟩, trivial, trivial⟩
    · cases hm : mainQueries charSigned xmlParse world a with
      | none => exact absurd hm (hq a hp)
      | some q =>
        simp only [main, hp, hdir, if_false, hm]
        cases hdbg : a.g.is_debugged <;>
          simp only [h1, h2, h3, Bool.false_eq_true, if_false, if_true, Bool.not_false,
            Bool.and_self] <;>
          exact ⟨⟨1, by decide, rfl⟩, trivial, trivial⟩


/-- C4 (counterexample). The call `autorevision +int --revision "" dir` supplies
the empty string as override value; with all strategies failing `main` passes
the revision `0`, not the supplied value, to `WriteOutput`. -/
theorem main_empty_override_ignored :
    parseArgs ["+int".toList, "--revision".toList, [], "dir".toList] ArgState.initial
      = ParseResult.done ⟨intOnly, [], "dir".toList, []⟩
    ∧ (main true noXml (svnTextWorld plainAnswer) emptyFiles
        ["autorevision".toList, "+int".toList, "--revision".toList, [], "dir".toList]).writeCall
      = some ("autorevision.h".toList, "0".toList, "unknown date".toList) := by
  decide

/-- C4 (witness). The call `autorevision +int --revision 777 dir` on a machine
where the legacy strategy succeeds with revision 99: revision `777` and the
queried date are passed on. -/
theorem main_override_nonempty_witness :
    (main true noXml (svnTextWorld legacyAnswer) emptyFiles
        ["autorevision".toList, "+int".toList, "--revision".toList, "777".toList,
          "dir".toList]).writeCall
      = some ("autorevision.h".toList, "777".toList, "2022-03-04 05:06:07".toList) :=
  main_override_nonempty true noXml (svnTextWorld legacyAnswer) emptyFiles
    ["autorevision".toList, "+int".toList, "--revision".toList, "777".toList, "dir".toList]
    ⟨intOnly, [], "dir".toList, "777".toList⟩
    ⟨"99".toList, "2022-03-04 05:06:07".toList, true,
      [⟨Strategy.svn, false, "0".toList, "unknown date".toList⟩,
       ⟨Strategy.svnOldStyle, true, "99".toList, "2022-03-04 05:06:07".toList⟩]⟩
    (by decide) (by decide) (Or.inl rfl) (by decide) (by decide)

/-- The call `autorevision dir` on a machine where the legacy strategy
succeeds: exit code 1, no call of `WriteOutput`, no file touched. -/
theorem main_without_representation_fails_witness :
    (∃ code, code ≠ 0 ∧ (main true noXml (svnTextWorld legacyAnswer) emptyFiles
        ["autorevision".toList, "dir".toList]).status = Status.exit code)
      ∧ (main true noXml (svnTextWorld legacyAnswer) emptyFiles
        ["autorevision".toList, "dir".toList]).writeCall = none
      ∧ (main true noXml (svnTextWorld legacyAnswer) emptyFiles
        ["autorevision".toList, "dir".toList]).fs = emptyFiles :=
  main_without_representation_fails true noXml (svnTextWorld legacyAnswer) emptyFiles
    ["autorevision".toList, "dir".toList]
    (by decide)
    (fun a h => by
      have e : ParseResult.done ⟨Globals.initial, [], "dir".toList, []⟩ = ParseResult.done a := h
      cases e
      decide)
    (fun a h => by
      have e : ParseResult.done ⟨Globals.initial, [], "dir".toList, []⟩ = ParseResult.done a := h
      cases e
      decide)


/-! ## Strategy 1 on a parsed document -/

theorem rfindChar_last (c : Char) (x f : Str) (hf : c ∉ f) :
    rfindChar (x ++ c :: f) c = some x.length := by
  have hrev : (x ++ c :: f).reverse = f.reverse ++ c :: x.reverse := by simp
  have hfind : find (x ++ c :: f).reverse [c] 0 = some (0 + f.reverse.length) :=
    find_char_append (Nat.zero_le _) (by rw [List.drop_zero, hrev]) (by simpa using hf)
  simp only [rfindChar, hfind, List.length_reverse, List.length_append, List.length_cons,
    Option.some.injEq]
  omega

theorem set_first (c e : Char) (x rest : Str) :
    (x ++ c :: rest).set x.length e = x ++ e :: rest := by
  rw [List.set_append_right _ _ (Nat.le_refl _)]
  simp

/-- C6. `QuerySvn`, when its command ran and the parser built a document whose
`info`/`entry`/`commit` element has the `revision` attribute `r` and a `date`
element with the text `D` `T` `t` `.` `f`, returns `true` with revision `r` and
date `D`, a space, `t`. Of the conditions on the text only two are needed: no
`T` in `D` and no `.` in `f`; so the statement also covers every `D` and `t`
that hold neither `T` nor `.`. -/
theorem QuerySvn_reads_commit (xmlParse : Str → Option (List XmlNode)) (world : World)
    (workingDir revision date output : Str) (doc : List XmlNode)
    (info entry commit dateElement : XmlNode) (r D t f : Str)
    (hsent : SendQueryViaPipeStream world
      ("svn info --xml --non-interactive ".toList ++ workingDir ++ " 2>&1".toList)
      = (true, output))
    (hdoc : xmlParse output = some doc)
    (hinfo : FirstChildElement doc "info".toList = some info)
    (hentry : FirstChildElement info.children "entry".toList = some entry)
    (hcommit : FirstChildElement entry.children "commit".toList = some commit)
    (hrev : commit.Attribute "revision".toList = some r)
    (hdate : FirstChildElement commit.children "date".toList = some dateElement)
    (htext : dateElement.GetText = some (D ++ 'T' :: (t ++ '.' :: f)))
    (hD : 'T' ∉ D) (hf : '.' ∉ f) :
    QuerySvn xmlParse world workingDir revision date = (true, r, D ++ ' ' :: t) := by
  have hT : find (D ++ 'T' :: (t ++ '.' :: f)) ['T'] 0 = some (0 + D.length) :=
    find_char_append (Nat.zero_le _) (by rw [List.drop_zero]) hD
  have hset := set_first 'T' ' ' D (t ++ '.' :: f)
  have hre : D ++ ' ' :: (t ++ '.' :: f) = (D ++ ' ' :: t) ++ '.' :: f := by simp
  have hdot := rfindChar_last '.' (D ++ ' ' :: t) f hf
  have htake : ((D ++ ' ' :: t) ++ '.' :: f).take (D ++ ' ' :: t).length = D ++ ' ' :: t :=
    List.take_left _ _
  simp only [QuerySvn, hsent, if_true, hdoc, QuerySvn_doc, hinfo, hentry, hcommit,
    Option.bind_some, Option.some_bind, hrev, hdate, htext, hT, Nat.zero_add, hset, hre, hdot,
    htake]

/-- C6 (witness). The XML example of the specification: revision `42` and the
date text `2023-05-06T07:08:09.123456Z` give `42` and `2023-05-06 07:08:09`. -/
theorem QuerySvn_reads_commit_witness :
    QuerySvn (fun _ => some commitDoc) (echoWorld []) "dir".toList "0".toList
        "unknown date".toList
      = (true, "42".toList, "2023-05-06 07:08:09".toList) :=
  QuerySvn_reads_commit (fun _ => some commitDoc) (echoWorld []) "dir".toList "0".toList
    "unknown date".toList [] commitDoc
    (XmlNode.element "info".toList []
      [XmlNode.element "entry".toList []
        [XmlNode.element "commit".toList [("revision".toList, "42".toList)]
          [XmlNode.element "date".toList []
            [XmlNode.text "2023-05-06T07:08:09.123456Z".toList]]]])
    (XmlNode.element "entry".toList []
      [XmlNode.element "commit".toList [("revision".toList, "42".toList)]
        [XmlNode.element "date".toList []
          [XmlNode.text "2023-05-06T07:08:09.123456Z".toList]]])
    (XmlNode.element "commit".toList [("revision".toList, "42".toList)]
      [XmlNode.element "date".toList []
        [XmlNode.text "2023-05-06T07:08:09.123456Z".toList]])
    (XmlNode.element "date".toList [] [XmlNode.text "2023-05-06T07:08:09.123456Z".toList])
    "42".toList "2023-05-06".toList "07:08:09".toList "123456Z".toList
    rfl rfl rfl rfl rfl rfl rfl rfl (by decide) (by decide)


/-! ## Strategy 2 on a captured text -/

/-- C7 (defect of the code). On the text
`Last Changed Rev: 99a`, newline, a well-formed date line, the maximal run of
digits after the label is `99`, but `QuerySvnOldStyle` extracts `99a`: the loop
counts the first char above `9` as well. On `Last Changed Rev: unknown` the run
of digits is empty, yet the strategy extracts `u` and reports success. This is
so for either signedness of `char`. -/
theorem QuerySvnOldStyle_revision_keeps_char_after_digits :
    (∀ charSigned : Bool,
      QuerySvnOldStyle_scan charSigned
        "Last Changed Rev: 99a\nLast Changed Date: 2022-03-04 05:06:07 +0000 (Fri, 04 Mar 2022)\n".toList
        "0".toList "unknown date".toList
      = some (true, "99a".toList, "2022-03-04 05:06:07".toList))
    ∧ (∀ charSigned : Bool,
      QuerySvnOldStyle_scan charSigned
        "Last Changed Rev: unknown\nLast Changed Date: 2022-03-04 05:06:07 +0000 (Fri, 04 Mar 2022)\n".toList
        "0".toList "unknown date".toList
      = some (true, "u".toList, "2022-03-04 05:06:07".toList)) := by
  decide

/-- C8. On a captured text in which the revision block succeeds and whose first
occurrence of the label `Last Changed Date: ` is followed by `rest`, the scan of
`QuerySvnOldStyle` returns; it returns `false` if and only if `rest` holds
fewer than two spaces; and when `rest` is `a`, a space, `b`, a space, `c` with no
space in `a` and `b`, it returns `true` with the date `a`, a space, `b`: the text
from just after the label up to, but not including, the second space. The
revision it leaves is the one of the revision block. -/
theorem QuerySvnOldStyle_date_up_to_second_space (charSigned : Bool)
    (output revision date pre rest r : Str) (len : Nat)
    (hout : output = pre ++ ("Last Changed Date: ".toList ++ rest))
    (hfirst : ∀ j, j < pre.length → ¬ "Last Changed Date: ".toList <+: output.drop j)
    (hrev : QuerySvnOldStyle_revision charSigned output = some (some (len, r))) :
    (∃ res, QuerySvnOldStyle_scan charSigned output revision date = some res
        ∧ (res.1 = false ↔ rest.count ' ' < 2) ∧ res.2.1 = r)
      ∧ ∀ a b c, rest = a ++ ' ' :: (b ++ ' ' :: c) → ' ' ∉ a → ' ' ∉ b →
          QuerySvnOldStyle_scan charSigned output revision date
            = some (true, r, a ++ ' ' :: b) := by
  have hfind := find_first hout hfirst
  have hdrop : output.drop (pre.length + 19) = rest := by
    have e : output = (pre ++ "Last Changed Date: ".toList) ++ rest := by
      rw [hout, List.append_assoc]
    rw [e]
    exact List.drop_left' (by simp)
  constructor
  · rcases QuerySvnOldStyle_date_cases len hfind with ⟨hc, hd⟩ | ⟨a, b, c, hs, ha, hb, hd⟩
    · refine ⟨(false, r, date), ?_, ?_, rfl⟩
      · simp only [QuerySvnOldStyle_scan, hrev, hd]
      · rw [hdrop] at hc
        simp [hc]
    · refine ⟨(true, r, a ++ ' ' :: b), ?_, ?_, rfl⟩
      · simp only [QuerySvnOldStyle_scan, hrev, hd]
      · rw [hdrop] at hs
        have h2 : 2 ≤ rest.count ' ' := by
          rw [hs]
          simp only [List.count_append, List.count_cons_self]
          omega
        simp only [Bool.true_eq_false, false_iff, not_lt]
        exact h2
  · intro a b c hs ha hb
    have hd := QuerySvnOldStyle_date_two_spaces len hfind (hdrop.trans hs) ha hb
    simp only [QuerySvnOldStyle_scan, hrev, hd]

/-- C8 (witness). The legacy example of the specification: the date is
`2022-03-04 05:06:07`. -/
theorem QuerySvnOldStyle_date_up_to_second_space_witness :
    QuerySvnOldStyle_scan true legacyAnswer "0".toList "unknown date".toList
      = some (true, "99".toList, "2022-03-04 05:06:07".toList) :=
  (QuerySvnOldStyle_date_up_to_second_space true legacyAnswer "0".toList "unknown date".toList
    "Last Changed Rev: 99\n".toList "2022-03-04 05:06:07 +0000 (Fri, 04 Mar 2022)\n".toList
    "99".toList 2 (by decide) (by decide) (by decide)).2
    "2022-03-04".toList "05:06:07".toList "+0000 (Fri, 04 Mar 2022)\n".toList
    (by decide) (by decide) (by decide)

theorem QuerySvnOldStyle_scan_no_rev_label (charSigned : Bool) (output revision date : Str)
    (h : find output "Last Changed Rev: ".toList 0 = none) :
    QuerySvnOldStyle_scan charSigned output revision date = some (false, revision, date) := by
  simp only [QuerySvnOldStyle_scan, QuerySvnOldStyle_revision, h]
  simp

theorem QuerySvnOldStyle_scan_no_date_label (charSigned : Bool) (output revision date r : Str)
    (len : Nat) (hrev : QuerySvnOldStyle_revision charSigned output = some (some (len, r)))
    (h : find output "Last Changed Date: ".toList 0 = none) :
    QuerySvnOldStyle_scan charSigned output revision date = none := by
  have hl := (QuerySvnOldStyle_revision_some hrev).choose_spec.2.1
  simp only [QuerySvnOldStyle_scan, hrev, QuerySvnOldStyle_date_no_label len h, hl, ne_eq,
    not_false_eq_true, if_true]

/-- C9 (defect of the code). On the text `Last Changed Rev: 99` followed by a
newline, printed by a command that exited with status 0, the date label is
missing; the scan of `QuerySvnOldStyle`, and likewise that of `QueryGitSvn`,
does not return `false`: `len` still holds the length 2 of the revision and
`pos` is `npos`, so `output.substr(pos, len)` throws `std::out_of_range`, which
nothing catches, and `main` is terminated. -/
theorem QuerySvnOldStyle_scan_throws_without_date_label :
    (∀ charSigned : Bool,
      QuerySvnOldStyle_scan charSigned "Last Changed Rev: 99\n".toList "0".toList
        "unknown date".toList = none)
    ∧ (∀ charSigned : Bool,
      QueryGitSvn_scan charSigned "Last Changed Rev: 99\n".toList "0".toList
        "unknown date".toList = none)
    ∧ (main true noXml (svnTextWorld "Last Changed Rev: 99\n".toList) emptyFiles
        ["autorevision".toList, "+int".toList, "dir".toList]).status = Status.uncaught := by
  decide


/-! ## What a successful strategy leaves -/

theorem QuerySvnOldStyle_scan_true {charSigned : Bool} {output revision date r d : Str}
    (h : QuerySvnOldStyle_scan charSigned output revision date = some (true, r, d)) :
    r ≠ [] ∧ d ≠ [] := by
  unfold QuerySvnOldStyle_scan at h
  cases hrev : QuerySvnOldStyle_revision charSigned output with
  | none => simp [hrev] at h
  | some o =>
    cases o with
    | none => simp [hrev] at h
    | some lr =>
      obtain ⟨len, rev⟩ := lr
      simp only [hrev] at h
      cases hdate : QuerySvnOldStyle_date output len with
      | none => simp [hdate] at h
      | some o2 =>
        cases o2 with
        | none => simp [hdate] at h
        | some dt =>
          simp only [hdate, Option.some.injEq, Prod.mk.injEq, true_and] at h
          rw [← h.1, ← h.2]
          exact ⟨QuerySvnOldStyle_revision_nonempty hrev, QuerySvnOldStyle_date_some hdate⟩

/-- C10 (counterexample). On the document `<info><entry><commit/></entry></info>`
`QuerySvn` reports success and leaves the empty string as revision. -/
theorem QuerySvn_success_with_empty_revision :
    QuerySvn (fun _ => some bareCommitDoc) (echoWorld []) "dir".toList "0".toList
        "unknown date".toList
      = (true, [], "unknown date".toList) := by
  decide

/-- C10 (amended). Whenever the scan of `QuerySvnOldStyle` or of `QueryGitSvn`
reports success on a captured text, the revision and the date it leaves are
both non-empty. `QuerySvn` reports success on a parsed document exactly when
the `info`/`entry`/`commit` element exists (third and fourth part), and the
revision it then leaves is the value of the `revision` attribute of that
element, or the empty string when there is no such attribute. -/
theorem strategies_success_results (charSigned : Bool) (output revision date r d : Str)
    (doc : List XmlNode) :
    (QuerySvnOldStyle_scan charSigned output revision date = some (true, r, d) →
        r ≠ [] ∧ d ≠ [])
    ∧ (QueryGitSvn_scan charSigned output revision date = some (true, r, d) →
        r ≠ [] ∧ d ≠ [])
    ∧ (QuerySvn_doc doc revision date = (true, r, d) →
        ∃ info entry commit,
          FirstChildElement doc "info".toList = some info
          ∧ FirstChildElement info.children "entry".toList = some entry
          ∧ FirstChildElement entry.children "commit".toList = some commit
          ∧ r = (commit.Attribute "revision".toList).getD [])
    ∧ (∀ info entry commit,
        FirstChildElement doc "info".toList = some info →
        FirstChildElement info.children "entry".toList = some entry →
        FirstChildElement entry.children "commit".toList = some commit →
        (QuerySvn_doc doc revision date).1 = true
          ∧ (QuerySvn_doc doc revision date).2.1
              = (commit.Attribute "revision".toList).getD []) := by
  refine ⟨QuerySvnOldStyle_scan_true, ?_, ?_, ?_⟩
  · intro h
    rw [QueryGitSvn_scan_eq] at h
    exact QuerySvnOldStyle_scan_true h
  · intro h
    simp only [QuerySvn_doc] at h
    cases hi : FirstChildElement doc "info".toList with
    | none =>
      rw [hi] at h
      simp at h
    | some info =>
      cases he : FirstChildElement info.children "entry".toList with
      | none =>
        rw [hi] at h
        simp only [Option.some_bind] at h
        rw [he] at h
        simp at h
      | some entry =>
        cases hc : FirstChildElement entry.children "commit".toList with
        | none =>
          rw [hi] at h
          simp only [Option.some_bind] at h
          rw [he] at h
          simp only [Option.some_bind] at h
          rw [hc] at h
          simp at h
        | some commit =>
          simp only [hi, he, hc, Option.some_bind, Prod.mk.injEq, true_and] at h
          refine ⟨info, entry, commit, rfl, he, hc, ?_⟩
          rw [← h.1]
          cases commit.Attribute "revision".toList <;> rfl
  · intro info entry commit hi he hc
    simp only [QuerySvn_doc, hi, he, hc, Option.some_bind]
    exact ⟨trivial, by cases commit.Attribute "revision".toList <;> rfl⟩

/-- C10 (witness). The legacy example of the specification: success with the
non-empty revision `99` and the non-empty date `2022-03-04 05:06:07`. -/
theorem strategies_success_results_witness :
    QuerySvnOldStyle_scan true legacyAnswer "0".toList "unknown date".toList
        = some (true, "99".toList, "2022-03-04 05:06:07".toList)
      ∧ "99".toList ≠ [] ∧ "2022-03-04 05:06:07".toList ≠ [] :=
  ⟨by decide,
    (strategies_success_results true legacyAnswer "0".toList "unknown date".toList
      "99".toList "2022-03-04 05:06:07".toList commitDoc).1 (by decide)⟩


/-! ## When the text scan returns -/

/-- On a text shorter than the buffer the digit loop ends inside the text:
the fuel is never used up and no index leaves the array. -/
theorem QuerySvnOldStyle_loop_returns (charSigned : Bool) (output : Str) (pos : Nat)
    (hshort : output.length < BUF_SIZE) :
    ∀ fuel len0 : Nat, pos + len0 ≤ output.length → output.length - (pos + len0) < fuel →
      ∃ len, QuerySvnOldStyle_loop charSigned output pos fuel len0 = some len
        ∧ pos + len ≤ output.length
  | 0, _, _, hfuel => absurd hfuel (Nat.not_lt_zero _)
  | fuel + 1, len0, hin, hfuel => by
    have hb : pos + len0 < BUF_SIZE := Nat.lt_of_le_of_lt hin hshort
    unfold QuerySvnOldStyle_loop bufAt
    simp only [hb, if_true]
    by_cases h1 : charVal charSigned '0' ≤ charVal charSigned (output.getD (pos + len0) (Char.ofNat 0))
    · have hlt : pos + len0 < output.length := by
        by_contra hge
        rw [List.getD_eq_default _ _ (Nat.le_of_not_lt hge), charVal_nul,
          charVal_digit_zero] at h1
        omega
      simp only [h1, if_true]
      by_cases h2 : charVal charSigned (output.getD (pos + len0) (Char.ofNat 0))
          ≤ charVal charSigned '9'
      · simp only [h2, if_true]
        exact QuerySvnOldStyle_loop_returns charSigned output pos hshort fuel (len0 + 1)
          (by omega) (by omega)
      · simp only [h2, if_false]
        exact ⟨len0 + 1, rfl, by omega⟩
    · simp only [h1, if_false]
      exact ⟨len0, rfl, hin⟩

/-- On a text shorter than the buffer the revision block always comes to an
end: it returns `false` or goes on to the date block. -/
theorem QuerySvnOldStyle_revision_returns (charSigned : Bool) (output : Str)
    (hshort : output.length < BUF_SIZE) :
    ∃ o, QuerySvnOldStyle_revision charSigned output = some o := by
  simp only [QuerySvnOldStyle_revision]
  cases hf : find output "Last Changed Rev: ".toList 0 with
  | none => exact ⟨none, by simp⟩
  | some p =>
    have hlen : "Last Changed Rev: ".toList.length = 18 := rfl
    have hp : p + 18 ≤ output.length := by
      have := (find_bounds hf).2
      rw [hlen] at this
      exact this
    obtain ⟨len, hl, _⟩ := QuerySvnOldStyle_loop_returns charSigned output (p + 18) hshort
      (BUF_SIZE + 1) 0 hp (by omega)
    simp only [hlen, hl, Option.map_some']
    by_cases h0 : len = 0
    · exact ⟨none, by simp [h0]⟩
    · exact ⟨some (len, (output.drop (p + 18)).take len), by simp [h0, substr, hp]⟩

/-- On a text shorter than the buffer the scan fails to return in one case
only: a revision was extracted and the label `Last Changed Date: ` is missing. -/
theorem QuerySvnOldStyle_scan_none_iff (charSigned : Bool) (output revision date : Str)
    (hshort : output.length < BUF_SIZE) :
    QuerySvnOldStyle_scan charSigned output revision date = none ↔
      (∃ len r, QuerySvnOldStyle_revision charSigned output = some (some (len, r)))
        ∧ find output "Last Changed Date: ".toList 0 = none := by
  obtain ⟨o, ho⟩ := QuerySvnOldStyle_revision_returns charSigned output hshort
  constructor
  · intro h
    cases o with
    | none => simp [QuerySvnOldStyle_scan, ho] at h
    | some lr =>
      obtain ⟨len, r⟩ := lr
      refine ⟨⟨len, r, ho⟩, ?_⟩
      cases hf : find output "Last Changed Date: ".toList 0 with
      | none => rfl
      | some p =>
        exfalso
        rcases QuerySvnOldStyle_date_cases len hf with ⟨_, hd⟩ | ⟨a, b, c, _, _, _, hd⟩ <;>
          simp [QuerySvnOldStyle_scan, ho, hd] at h
  · rintro ⟨⟨len, r, hr⟩, hf⟩
    exact QuerySvnOldStyle_scan_no_date_label charSigned output revision date r len hr hf


theorem getD_of_drop {output : Str} {i : Nat} {c : Char} {rest : Str}
    (h : output.drop i = c :: rest) : output.getD i (Char.ofNat 0) = c := by
  have h1 : (output.drop i).head? = some c := by rw [h]; rfl
  rw [List.head?_drop] at h1
  rw [List.getD_eq_getElem?_getD, h1]
  rfl

theorem drop_succ_of_drop {output : Str} {i : Nat} {c : Char} {rest : Str}
    (h : output.drop i = c :: rest) : output.drop (i + 1) = rest := by
  have := congrArg (List.drop 1) h
  simpa [List.drop_drop] using this

theorem lt_length_of_drop {output : Str} {i : Nat} {c : Char} {rest : Str}
    (h : output.drop i = c :: rest) : i < output.length := by
  by_contra hge
  rw [List.drop_eq_nil_of_le (Nat.le_of_not_lt hge)] at h
  exact List.noConfusion h

/-- What the digit loop computes on a text shorter than the buffer. When the
text from `pos + len0` on is a run `digits` of chars in `'0'..'9'` followed by
`tail`, whose first char, if any, is not in `'0'..'9'`, the loop adds to `len`
the length of the run, and one more when `tail` starts with a char above `'9'`. -/
theorem QuerySvnOldStyle_loop_run (charSigned : Bool) (output : Str) (pos : Nat)
    (hshort : output.length < BUF_SIZE) (tail : Str)
    (hmax : ∀ c, tail.head? = some c →
      ¬ (charVal charSigned '0' ≤ charVal charSigned c
        ∧ charVal charSigned c ≤ charVal charSigned '9')) :
    ∀ (digits : Str) (fuel len0 : Nat), pos + len0 ≤ output.length →
      output.drop (pos + len0) = digits ++ tail →
      (∀ x ∈ digits, charVal charSigned '0' ≤ charVal charSigned x
        ∧ charVal charSigned x ≤ charVal charSigned '9') →
      digits.length < fuel →
      QuerySvnOldStyle_loop charSigned output pos fuel len0
        = some (len0 + digits.length +
            (match tail.head? with
              | some c => if charVal charSigned '9' < charVal charSigned c then 1 else 0
              | none => 0))
  | [], 0, _, _, _, _, hfuel => absurd hfuel (Nat.not_lt_zero _)
  | [], fuel + 1, len0, hin, hdrop, _, _ => by
    rw [List.nil_append] at hdrop
    unfold QuerySvnOldStyle_loop bufAt
    cases tail with
    | nil =>
      have hge : output.length ≤ pos + len0 := by
        have := congrArg List.length hdrop
        simp only [List.length_drop, List.length_nil] at this
        omega
      by_cases hb : pos + len0 < BUF_SIZE
      · simp only [hb, if_true, List.getD_eq_default _ _ hge, charVal_nul, charVal_digit_zero]
        simp
      · exfalso; omega
    | cons c tl =>
      have hb : pos + len0 < BUF_SIZE := Nat.lt_trans (lt_length_of_drop hdrop) hshort
      have hc := hmax c rfl
      simp only [hb, if_true, getD_of_drop hdrop, List.head?_cons, List.length_nil,
        Nat.add_zero]
      by_cases h1 : charVal charSigned '0' ≤ charVal charSigned c
      · have h2 : ¬ charVal charSigned c ≤ charVal charSigned '9' := fun h => hc ⟨h1, h⟩
        have h3 : charVal charSigned '9' < charVal charSigned c := by omega
        simp only [h1, h2, h3, if_true, if_false]
      · have h3 : ¬ charVal charSigned '9' < charVal charSigned c := by
          have : charVal charSigned '0' ≤ charVal charSigned '9' := by
            cases charSigned <;> decide
          omega
        simp only [h1, h3, if_false, Nat.add_zero]
  | _ :: _, 0, _, _, _, _, hfuel => absurd hfuel (Nat.not_lt_zero _)
  | x :: ds, fuel + 1, len0, _, hdrop, hdig, hfuel => by
    rw [List.cons_append] at hdrop
    have hb : pos + len0 < BUF_SIZE := Nat.lt_trans (lt_length_of_drop hdrop) hshort
    have hx := hdig x (by simp)
    have ih := QuerySvnOldStyle_loop_run charSigned output pos hshort tail hmax ds fuel
      (len0 + 1) (lt_length_of_drop hdrop) (drop_succ_of_drop hdrop) (fun y hy => hdig y (by simp [hy]))
      (by simpa using hfuel)
    unfold QuerySvnOldStyle_loop bufAt
    simp only [hb, if_true, getD_of_drop hdrop, hx.1, hx.2, ih, List.length_cons,
      Option.some.injEq]
    omega


/-! ## The two text scans -/

/-- C13. The text-scanning part of `QueryGitSvn` and the text-scanning part of
`QuerySvnOldStyle` are the same function: on every captured text, with every
initial `revision` and `date` and for either signedness of `char`, both end the
same way, and when they return they return the same flag and leave the same
`revision` and `date`. The same holds block by block: the digit loops, the
revision blocks and the date blocks agree. -/
theorem text_scans_agree (charSigned : Bool) (output revision date : Str) :
    QueryGitSvn_scan charSigned output revision date
        = QuerySvnOldStyle_scan charSigned output revision date
      ∧ QueryGitSvn_revision charSigned output = QuerySvnOldStyle_revision charSigned output
      ∧ (∀ len, QueryGitSvn_date output len = QuerySvnOldStyle_date output len)
      ∧ (∀ pos fuel len, QueryGitSvn_loop charSigned output pos fuel len
          = QuerySvnOldStyle_loop charSigned output pos fuel len) :=
  ⟨QueryGitSvn_scan_eq charSigned output revision date,
    QueryGitSvn_revision_eq charSigned output,
    fun len => QueryGitSvn_date_eq output len,
    fun pos fuel len => QueryGitSvn_loop_eq charSigned output pos fuel len⟩


/-! ## The text of the generated header -/

theorem WriteOutput_wrote {g : Globals} {fs : FileSys} {outputFile revision date : Str}
    (h : (WriteOutput g fs outputFile revision date).wrote = true) :
    ((WriteOutput g fs outputFile revision date).fs outputFile).content
      = some (headerText g revision date) := by
  unfold WriteOutput at h ⊢
  simp only at h ⊢
  split at h
  · simp at h
  · rename_i hu
    split at h
    · simp at h
    · rename_i hwr
      simp only [hu, hwr, if_false, Bool.false_eq_true, Function.update_same]

theorem headerText_int_line (g : Globals) (revision date : Str) (hint : g.do_int = true) :
    ("\tconst unsigned int svn_revision = ".toList ++ revision ++ ";\n".toList)
      <:+: headerText g revision date := by
  unfold headerText
  simp only [hint, if_true]
  exact (List.suffix_append _ _).isInfix.trans
    ((((((List.prefix_append _ _).trans (List.prefix_append _ _)).trans
      (List.prefix_append _ _)).trans (List.prefix_append _ _)).trans
      (List.prefix_append _ _)).trans (List.prefix_append _ _)).isInfix

/-- C11. Whenever `do_int` is set and `WriteOutput` writes the file, whatever
the values of `do_std`, `do_wx` and `do_translate`, the text of the file holds
the declaration `const unsigned int svn_revision = r;` with the revision `r`
as it is, neither quoted nor wrapped in `_T(...)`; so it holds
`svn_revision = r;` as well. -/
theorem WriteOutput_int_declaration (g : Globals) (fs : FileSys)
    (outputFile revision date : Str) (hint : g.do_int = true)
    (hwrote : (WriteOutput g fs outputFile revision date).wrote = true) :
    ∃ text, ((WriteOutput g fs outputFile revision date).fs outputFile).content = some text
      ∧ ("const unsigned int svn_revision = ".toList ++ revision ++ ";".toList) <:+: text
      ∧ ("svn_revision = ".toList ++ revision ++ ";".toList) <:+: text := by
  refine ⟨headerText g revision date, WriteOutput_wrote hwrote, ?_, ?_⟩
  · refine List.IsInfix.trans ⟨"\t".toList, "\n".toList, ?_⟩
      (headerText_int_line g revision date hint)
    simp only [List.append_assoc]
    rfl
  · refine List.IsInfix.trans ⟨"\tconst unsigned int ".toList, "\n".toList, ?_⟩
      (headerText_int_line g revision date hint)
    simp only [List.append_assoc]
    rfl

/-- C11 (witness). Revision `1234` and date `2024-01-02 03:04:05` with `+int`
on a file that does not exist yet: the file is written and its text holds
`svn_revision = 1234;`. -/
theorem WriteOutput_int_declaration_witness :
    ∃ text, ((WriteOutput intOnly emptyFiles "autorevision.h".toList "1234".toList
        "2024-01-02 03:04:05".toList).fs "autorevision.h".toList).content = some text
      ∧ ("const unsigned int svn_revision = ".toList ++ "1234".toList ++ ";".toList) <:+: text
      ∧ ("svn_revision = ".toList ++ "1234".toList ++ ";".toList) <:+: text :=
  WriteOutput_int_declaration intOnly emptyFiles "autorevision.h".toList "1234".toList
    "2024-01-02 03:04:05".toList (by decide) (by decide)


set_option maxRecDepth 20000 in
/-- C12 (defect of the code). With `+std` alone, revision `1234` and date
`2024-01-02 03:04:05`, on a file that does not exist yet, `WriteOutput` writes
the file, and the declaration of `svn_date_s` in it is bound to the revision:
the line reads `const std::string svn_date_s("1234");`. The date occurs in the
tag line only; no declaration is bound to it. -/
theorem WriteOutput_std_date_holds_revision :
    (WriteOutput stdOnly emptyFiles "autorevision.h".toList "1234".toList
        "2024-01-02 03:04:05".toList).wrote = true
    ∧ ((WriteOutput stdOnly emptyFiles "autorevision.h".toList "1234".toList
        "2024-01-02 03:04:05".toList).fs "autorevision.h".toList).content
      = some
          ("/* revision:1234;date:2024-01-02 03:04:05;do_int:false;do_std:true;do_translate:false;do_wx:false */\n"
          ++ "// Don\x27t include this header, only configmanager-revision.cpp should do this.\n"
          ++ "#ifndef AUTOREVISION_H\n"
          ++ "#define AUTOREVISION_H\n"
          ++ "\n"
          ++ "\n"
          ++ "#include <string>\n"
          ++ "\n"
          ++ "namespace autorevision\n"
          ++ "\x7b\n"
          ++ "\t const std::string svn_revision_s(\"1234\");\n"
          ++ "\tconst std::string svn_date_s(\"1234\");\n"
          ++ "\x7d\n"
          ++ "\n"
          ++ "\n"
          ++ "\n"
          ++ "#endif // AUTOREVISION_H\n").toList
    ∧ ¬ ("svn_date_s(\"2024-01-02 03:04:05\")".toList
          <:+: headerText stdOnly "1234".toList "2024-01-02 03:04:05".toList) := by
  refine ⟨by decide, by decide, ?_⟩
  decide


/-! ## The revision tag tells its inputs apart -/

theorem append_sep_inj (c : Char) : ∀ (r1 r2 t1 t2 : Str), c ∉ r1 → c ∉ r2 →
    r1 ++ c :: t1 = r2 ++ c :: t2 → r1 = r2 ∧ t1 = t2
  | [], [], _, _, _, _, h => by
    simp only [List.nil_append, List.cons.injEq, true_and] at h
    exact ⟨rfl, h⟩
  | [], y :: r2, _, _, _, h2, h => by
    simp only [List.nil_append, List.cons_append, List.cons.injEq] at h
    exact absurd (by simp [h.1]) h2
  | x :: r1, [], _, _, h1, _, h => by
    simp only [List.nil_append, List.cons_append, List.cons.injEq] at h
    exact absurd (by simp [h.1]) h1
  | x :: r1, y :: r2, t1, t2, h1, h2, h => by
    simp only [List.cons_append, List.cons.injEq] at h
    have ih := append_sep_inj c r1 r2 t1 t2 (fun e => h1 (by simp [e]))
      (fun e => h2 (by simp [e])) h.2
    exact ⟨by rw [h.1, ih.1], ih.2⟩

theorem suffix_cases_of_append_eq {d1 d2 s1 s2 : Str} (h : d1 ++ s1 = d2 ++ s2) :
    s1 <:+ s2 ∨ s2 <:+ s1 := by
  have a : s1 <:+ d1 ++ s1 := List.suffix_append d1 s1
  have b : s2 <:+ d1 ++ s1 := by rw [h]; exact List.suffix_append d2 s2
  exact List.suffix_or_suffix_of_suffix a b

set_option maxRecDepth 20000 in
theorem flags_suffix_inj : ∀ a1 a2 a3 a4 b1 b2 b3 b4 : Bool,
    (";".toList ++ ("do_int:".toList ++ (boolalpha a1 ++ (";".toList ++ ("do_std:".toList ++
      (boolalpha a2 ++ (";".toList ++ ("do_translate:".toList ++ (boolalpha a3 ++
      (";".toList ++ ("do_wx:".toList ++ (boolalpha a4 ++ " */".toList))))))))))))
    <:+ (";".toList ++ ("do_int:".toList ++ (boolalpha b1 ++ (";".toList ++ ("do_std:".toList ++
      (boolalpha b2 ++ (";".toList ++ ("do_translate:".toList ++ (boolalpha b3 ++
      (";".toList ++ ("do_wx:".toList ++ (boolalpha b4 ++ " */".toList)))))))))))) →
    a1 = b1 ∧ a2 = b2 ∧ a3 = b3 ∧ a4 = b4 := by
  decide

/-- C14. The revision tag built by `WriteOutput` is injective on inputs whose
revision holds no `;`: when the tags of two inputs (revision, date and the
flags `do_int`, `do_std`, `do_translate`, `do_wx`) are equal and neither
revision holds a `;`, then the revisions, the dates and the four flags are
equal. So a tag match never hides a change of any of the six inputs. -/
theorem versionTag_injective (g1 g2 : Globals) (revision1 date1 revision2 date2 : Str)
    (h1 : ';' ∉ revision1) (h2 : ';' ∉ revision2)
    (h : versionTag g1 revision1 date1 = versionTag g2 revision2 date2) :
    revision1 = revision2 ∧ date1 = date2
      ∧ g1.do_int = g2.do_int ∧ g1.do_std = g2.do_std
      ∧ g1.do_translate = g2.do_translate ∧ g1.do_wx = g2.do_wx := by
  simp only [versionTag, List.append_assoc] at h
  have hA := List.append_cancel_left (List.append_cancel_left h)
  obtain ⟨hr, hB⟩ := append_sep_inj ';' revision1 revision2 _ _ h1 h2 hA
  have hC := @List.append_cancel_left _ "date:".toList _ _ hB
  have hsuf := suffix_cases_of_append_eq hC
  have hflags : g1.do_int = g2.do_int ∧ g1.do_std = g2.do_std
      ∧ g1.do_translate = g2.do_translate ∧ g1.do_wx = g2.do_wx := by
    rcases hsuf with hs | hs
    · exact flags_suffix_inj _ _ _ _ _ _ _ _ hs
    · obtain ⟨e1, e2, e3, e4⟩ := flags_suffix_inj _ _ _ _ _ _ _ _ hs
      exact ⟨e1.symm, e2.symm, e3.symm, e4.symm⟩
  obtain ⟨e1, e2, e3, e4⟩ := hflags
  rw [e1, e2, e3, e4] at hC
  exact ⟨hr, List.append_cancel_right hC, e1, e2, e3, e4⟩

/-- C14 (witness). Two inputs with the tag of revision `1234`, date
`2024-01-02 03:04:05` and `+int`. -/
theorem versionTag_injective_witness :
    "1234".toList = "1234".toList
      ∧ "2024-01-02 03:04:05".toList = "2024-01-02 03:04:05".toList
      ∧ intOnly.do_int = intOnly.do_int ∧ intOnly.do_std = intOnly.do_std
      ∧ intOnly.do_translate = intOnly.do_translate ∧ intOnly.do_wx = intOnly.do_wx :=
  versionTag_injective intOnly intOnly "1234".toList "2024-01-02 03:04:05".toList
    "1234".toList "2024-01-02 03:04:05".toList (by decide) (by decide) rfl


/-! ## Runs of `main` that do not reach the gate -/

/-- C5 (defect of the code). The call `autorevision dir`, without any of `+int`,
`+std`, `+wx`, on a machine where `svn info` prints `Last Changed Rev: 99` and
a newline: `main` does not return a failure exit code, it does not return at
all. `QuerySvnOldStyle` throws `std::out_of_range` before the check of the
representation flags is reached, and the process is terminated; `WriteOutput`
is not called. Likewise `autorevision dir --revision` reads past the end of
`argv`. -/
theorem main_without_representation_ends_uncaught :
    (main true noXml (svnTextWorld "Last Changed Rev: 99\n".toList) emptyFiles
        ["autorevision".toList, "dir".toList]).status = Status.uncaught
    ∧ (main true noXml (svnTextWorld "Last Changed Rev: 99\n".toList) emptyFiles
        ["autorevision".toList, "dir".toList]).writeCall = none
    ∧ (main true noXml (svnTextWorld legacyAnswer) emptyFiles
        ["autorevision".toList, "dir".toList, "--revision".toList]).status
      = Status.undefined := by
  decide

end Autorevision
